import Mathlib

/-!
Verification development for the JOP (Java Optimized Processor) SpinalHDL
rewrite repository.  The repository under verification ships the cocotb
verification harness and the FPGA loader scripts; the processor core itself
(bit-serial multiplier, barrel shifter, stack/execute unit, bytecode fetch
with interrupt arbitration, method cache) is described by the specification
and exercised by the tests.  The hardware components are therefore modelled
here from the specification, at the granularity the specification fixes
(one model step = one rising clock edge for the sequential units; pure
functions for the combinational ones).  The loader (`download.py`) is
embedded from its Python source.
-/

namespace JopSpec

/-- 2^31, the sign-bit weight of a 32-bit word. -/
def M31 : Nat := 2147483648

/-- 2^32, the modulus of 32-bit datapath arithmetic. -/
def M32 : Nat := 4294967296

/-- 2^33, the modulus of the 33-bit precision used for the less-than flag. -/
def M33 : Nat := 8589934592

/-- Sign bit of a 32-bit word (bit 31). -/
def signBit (x : Nat) : Nat := x / M31 % 2

/-- Two's-complement reading of a 32-bit word as a mathematical integer. -/
def toSigned (x : Nat) : Int := if x < M31 then (x : Int) else (x : Int) - (M32 : Int)

/-- Sign extension of a 32-bit word to 33 bits (bit 32 copies bit 31). -/
def ext33 (x : Nat) : Nat := x + signBit x * M32

/-- Modelled from the spec: the StackExecuteUnit's 33-bit subtract B - A
(two's complement, 33-bit precision) from which the less-than flag is taken;
the corresponding datapath of `stack.vhd` is not part of the shipped sources. -/
def sub33 (b a : Nat) : Nat := (ext33 b + (M33 - ext33 a)) % M33

/-- Modelled from the spec: zero flag, a pure function of the current A
operand — true iff A is zero. -/
def zf (a : Nat) : Bool := a == 0

/-- Modelled from the spec: negative flag — A's sign bit. -/
def nf (a : Nat) : Bool := signBit a == 1

/-- Modelled from the spec: equal flag — A equals B. -/
def eqf (a b : Nat) : Bool := a == b

/-- Modelled from the spec: less-than flag — the sign (bit 32) of the 33-bit
subtract result B - A, so it is true iff B is less than A as signed 32-bit
two's-complement values. -/
def ltf (a b : Nat) : Bool := sub33 b a / M32 % 2 == 1

/-- Modelled from the spec: the registers of the stack/execute unit that are
observable after reset — A (top of stack), B (next on stack) and SP. -/
structure StackState where
  a : Nat
  b : Nat
  sp : Nat
deriving Repr, DecidableEq

/-- Number of words in the stack/local-variable RAM (RAM_WIDTH = 8 address
bits in the verification harness). -/
def stackRamWords : Nat := 256

/-- Modelled from the spec: reset state of the stack/execute unit.  A and B
reset to zero; SP resets at the RAM's midpoint so that two logically distinct
regions can grow from the center (`stack.vhd` itself is not part of the
shipped sources; the reset values are those the verification harness checks). -/
def stackResetState : StackState :=
  { a := 0, b := 0, sp := stackRamWords / 2 }

end JopSpec

namespace JopSpec

/-- Microcode address of the "not implemented" bytecode handler (sys_noim),
as published to the verification harness from the generated jump table. -/
def jpaddrSysNoim : Nat := 0x0EC

/-- The jump-table entries for implemented bytecodes that the shipped
verification harness pins down (opcode byte, microcode address). -/
def jtblMapped : List (Nat × Nat) :=
  [(0x00, 0x218), (0x60, 0x26C)]

/-- Modelled from the spec: the generated 256-entry jump table (`jtbl.vhd`,
not part of the shipped sources).  Every instruction byte maps to a fixed
constant microcode address; every byte without an implemented handler maps
to the single "not implemented" handler address. -/
def jtbl (b : Nat) : Nat :=
  match jtblMapped.lookup b with
  | some a => a
  | none => jpaddrSysNoim

end JopSpec

namespace JopSpec

/-- Words of a parsed `.jop` image, as produced by `parse_jop_file` in
`src/fpga/scripts/download.py`: each parsed token is masked to 32 bits. -/
def JopImage := List Nat

/-- Outcome of the loader's main path in `download.py`, after parsing:
either a hard failure (exit 1) or a transmission record. -/
structure LoadOutcome where
  warned : Bool
  transmitted : List Nat
deriving Repr, DecidableEq

/-- The word-count-mismatch warning condition of `download.py` `main`:
the first parsed word is the declared total length, compared against the
number of words actually parsed. -/
def headerMismatch (words : List Nat) : Bool :=
  words.headD 0 != words.length

/-- `write32_check` masks each word to 32 bits before sending it MSB-first. -/
def transmittedWords (words : List Nat) : List Nat :=
  words.map (fun w => w % M32)

/-- The load path of `main` in `src/fpga/scripts/download.py` from the parsed
word list on: an empty parse is a hard failure (`sys.exit(1)`); otherwise the
declared length (first word) is compared with the parsed count — a mismatch
only prints a warning — and the transmission loop then sends every parsed
word. -/
def loadImage (words : List Nat) : Option LoadOutcome :=
  if words = [] then
    none
  else
    some { warned := headerMismatch words, transmitted := transmittedWords words }

end JopSpec

namespace JopSpec

/-- Modelled from the spec: the state of the radix-4 bit-serial multiplier
(`mul.vhd` is not part of the shipped sources).  `p` accumulates the partial
product, `a` is the multiplicand (shifted left two bits per cycle), `b` holds
the remaining multiplier bits (consumed two per cycle), `cnt` the remaining
busy cycles, and `dout` the held output register. -/
structure MulState where
  p : Nat
  a : Nat
  b : Nat
  cnt : Nat
  dout : Nat
deriving Repr, DecidableEq

/-- One radix-4 partial-product step: absorb the low two bits of the
multiplier into the accumulator, shift the multiplicand, drop the consumed
multiplier bits.  All 32-bit registers wrap modulo 2^32. -/
def r4Step : Nat × Nat × Nat → Nat × Nat × Nat
  | (p, a, b) => ((p + b % 4 * a) % M32, a * 4 % M32, b / 4)

/-- `k` iterated radix-4 steps. -/
def r4Iter : Nat → Nat × Nat × Nat → Nat × Nat × Nat
  | 0, t => t
  | k + 1, t => r4Iter k (r4Step t)

/-- Modelled from the spec: one rising clock edge of the bit-serial
multiplier.  A start pulse (`wr`) loads both operands and restarts the
computation unconditionally — last writer wins, no queue, no error — leaving
the held output untouched.  Without a start pulse the unit performs one
radix-4 step per cycle; the last busy cycle also commits the accumulated
product into the held output register, which then stays stable. -/
def mulStep (s : MulState) (wr : Bool) (ain bin : Nat) : MulState :=
  if wr then
    { p := 0, a := ain % M32, b := bin % M32, cnt := 16, dout := s.dout }
  else
    match s.cnt with
    | 0 => s
    | 1 =>
      let t := r4Step (s.p, s.a, s.b)
      { p := t.1, a := t.2.1, b := t.2.2, cnt := 0, dout := t.1 }
    | n + 2 =>
      let t := r4Step (s.p, s.a, s.b)
      { p := t.1, a := t.2.1, b := t.2.2, cnt := n + 1, dout := s.dout }

/-- `n` clock edges with the start input deasserted. -/
def mulIdle : MulState → Nat → MulState
  | s, 0 => s
  | s, n + 1 => mulIdle (mulStep s false 0 0) n

/-- The multiplier's result latency in clock edges, counting the edge that
samples the start pulse as the first. -/
def mulLatency : Nat := 17

end JopSpec

namespace JopSpec

/-- Modelled from the spec: the interrupt/exception pending latches of the
bytecode fetch stage (`bcfetch.vhd` is not part of the shipped sources) —
single-bit pending flags, one per request kind. -/
structure IrqState where
  intPend : Bool
  excPend : Bool
deriving Repr, DecidableEq, Fintype

/-- Per-cycle inputs of the interrupt arbitration: the external interrupt
and exception request pulses, the interrupt-enable input, and whether the
cycle is a bytecode fetch. -/
structure IrqIn where
  irq : Bool
  exc : Bool
  ena : Bool
  jfetch : Bool
deriving Repr, DecidableEq, Fintype

/-- Where a bytecode fetch dispatches to. -/
inductive Dispatch where
  | exc
  | int
  | normal
deriving Repr, DecidableEq

/-- Modelled from the spec: combinational exception acknowledge — pulses
during a fetch cycle with the exception latch pending.  Not gated by the
interrupt-enable input. -/
def ackExc (s : IrqState) (i : IrqIn) : Bool :=
  i.jfetch && s.excPend

/-- Modelled from the spec: combinational interrupt acknowledge — pulses
during a fetch cycle with the interrupt latch pending, interrupts enabled,
and no pending exception (exception has priority). -/
def ackIrq (s : IrqState) (i : IrqIn) : Bool :=
  i.jfetch && !s.excPend && s.intPend && i.ena

/-- Modelled from the spec: the fetch-cycle dispatch mux — exception handler
first, then interrupt handler, else the normal jump-table target. -/
def dispatch (s : IrqState) (i : IrqIn) : Dispatch :=
  if ackExc s i then .exc
  else if ackIrq s i then .int
  else .normal

/-- The microcode address a fetch dispatches to, given the normal jump-table
address for the fetched byte and the two handler addresses. -/
def dispatchAddr (s : IrqState) (i : IrqIn) (sysExc sysInt normal : Nat) : Nat :=
  match dispatch s i with
  | .exc => sysExc
  | .int => sysInt
  | .normal => normal

/-- Modelled from the spec: one rising clock edge of the pending latches.
A latch is set by its external pulse and cleared only by its acknowledge
(during a fetch cycle); a pulse not observed in the cycle it occurs remains
latched. -/
def irqStep (s : IrqState) (i : IrqIn) : IrqState :=
  { intPend := i.irq || (s.intPend && !ackIrq s i),
    excPend := i.exc || (s.excPend && !ackExc s i) }

end JopSpec

namespace JopSpec

/-- A method-cache tag: the (origin address, length) pair of a cached
instruction-stream segment. -/
def MTag := Nat × Nat
deriving DecidableEq

/-- Modelled from the spec: the method cache's state — one optional tag per
block (`none` = invalid since reset) and the round-robin next-allocation
pointer (`cache.vhd` / the SpinalHDL MethodCache are not part of the shipped
sources). -/
structure MCache where
  blocks : List (Option MTag)
  nxt : Nat
deriving DecidableEq

/-- A cache with `n` blocks, all invalid, as after reset. -/
def emptyCache (n : Nat) : MCache :=
  { blocks := List.replicate n none, nxt := 0 }

/-- Index of the first block whose committed tag equals the looked-up pair. -/
def findTag : List (Option MTag) → MTag → Option Nat
  | [], _ => none
  | t :: ts, p => if t = some p then some 0 else (findTag ts p).map (· + 1)

/-- Result of one method-cache lookup transaction: hit flag, the block index
whose base is returned (`bcstart` is this index scaled by the block size),
and the cache state once the transaction — including the refill a miss hands
to the memory controller — has completed. -/
structure LookupResult where
  hit : Bool
  base : Nat
  cache : MCache
deriving DecidableEq

/-- Modelled from the spec: one method-cache lookup of an (address, length)
pair.  A tag match is a hit and changes nothing; a miss allocates the block
the round-robin pointer names — evicting whatever it held, unconditionally —
hands it to the memory controller for refill, commits the tag on completion
and advances the pointer. -/
def mcLookup (c : MCache) (p : MTag) : LookupResult :=
  match findTag c.blocks p with
  | some i => { hit := true, base := i, cache := c }
  | none =>
    { hit := false, base := c.nxt,
      cache := { blocks := c.blocks.set c.nxt (some p),
                 nxt := (c.nxt + 1) % c.blocks.length } }

/-- A sequence of lookup transactions, keeping only the final cache state. -/
def mcRun (c : MCache) : List MTag → MCache
  | [] => c
  | p :: ps => mcRun (mcLookup c p).cache ps

end JopSpec

namespace JopSpec

/-- Modelled from the spec: one `k`-bit stage of the barrel shifter
(`shift.vhd` is not part of the shipped sources).  Mode 0 is unsigned right
shift, mode 1 left shift masked to 32 bits, mode 2 arithmetic right shift
filling the vacated `k` high bits with the input's sign bit (`sign` is that
bit, 0 or 1; the fill occupies bits disjoint from the shifted value, so it
is the sign bit times the top-`k`-bits mask `M32 - M32 / 2 ^ k`). -/
def shiftStage (mode : Nat) (sign : Nat) (k x : Nat) : Nat :=
  if mode = 1 then x * 2 ^ k % M32
  else if mode = 2 then x / 2 ^ k + sign * (M32 - M32 / 2 ^ k)
  else x / 2 ^ k

/-- One conditional stage of the barrel shifter: apply the `k`-bit shift when
the corresponding bit of the shift amount is set (`k` is a power of two, so
that bit is `off / k % 2`), otherwise pass the value through. -/
def stageIf (mode : Nat) (sign : Nat) (k off x : Nat) : Nat :=
  if off / k % 2 = 1 then shiftStage mode sign k x else x

/-- Modelled from the spec: the multi-stage barrel shifter — shift by 16,
then 8, then 4, then 2, then 1 bit, each stage applied when the corresponding
bit of the 5-bit shift amount is set; the arithmetic-mode fill always uses
the original input's sign bit. -/
def barrel (din off mode : Nat) : Nat :=
  stageIf mode (signBit din) 1 off (stageIf mode (signBit din) 2 off
    (stageIf mode (signBit din) 4 off (stageIf mode (signBit din) 8 off
      (stageIf mode (signBit din) 16 off din))))

/-- Reference semantics of the spec: logical (unsigned) right shift. -/
def ushrRef (x k : Nat) : Nat := x / 2 ^ k

/-- Reference semantics of the spec: left shift masked to 32 bits. -/
def shlRef (x k : Nat) : Nat := x * 2 ^ k % M32

/-- Reference semantics of the spec: sign-extending (arithmetic) right
shift — the vacated `k` high bits are all filled with the input's sign bit. -/
def shrRef (x k : Nat) : Nat :=
  x / 2 ^ k + signBit x * (M32 - M32 / 2 ^ k)

end JopSpec

namespace JopSpec

lemma r4Step_inv (t : Nat × Nat × Nat) :
    ((r4Step t).1 + (r4Step t).2.1 * (r4Step t).2.2) % M32
      = (t.1 + t.2.1 * t.2.2) % M32 := by
  obtain ⟨p, a, b⟩ := t
  show ((p + b % 4 * a) % M32 + a * 4 % M32 * (b / 4)) % M32
      = (p + a * b) % M32
  conv_rhs => rw [← Nat.div_add_mod b 4]
  have h1 : (p + b % 4 * a) % M32 + a * 4 % M32 * (b / 4)
      ≡ p + b % 4 * a + a * 4 * (b / 4) [MOD M32] :=
    Nat.ModEq.add (Nat.mod_modEq _ _) (Nat.ModEq.mul_right _ (Nat.mod_modEq _ _))
  calc ((p + b % 4 * a) % M32 + a * 4 % M32 * (b / 4)) % M32
      = (p + b % 4 * a + a * 4 * (b / 4)) % M32 := h1
    _ = (p + a * (4 * (b / 4) + b % 4)) % M32 := by ring_nf

lemma r4Iter_inv (k : Nat) : ∀ t : Nat × Nat × Nat,
    ((r4Iter k t).1 + (r4Iter k t).2.1 * (r4Iter k t).2.2) % M32
      = (t.1 + t.2.1 * t.2.2) % M32 := by
  induction k with
  | zero => intro t; rfl
  | succ k ih =>
    intro t
    rw [r4Iter, ih (r4Step t), r4Step_inv]

lemma r4Iter_snd (k : Nat) : ∀ t : Nat × Nat × Nat,
    (r4Iter k t).2.2 = t.2.2 / 4 ^ k := by
  induction k with
  | zero => intro t; simp [r4Iter]
  | succ k ih =>
    intro t
    rw [r4Iter, ih (r4Step t)]
    obtain ⟨p, a, b⟩ := t
    show b / 4 / 4 ^ k = b / 4 ^ (k + 1)
    rw [Nat.div_div_eq_div_mul, pow_succ]
    ring_nf

lemma r4Iter_fst_lt (k : Nat) : ∀ t : Nat × Nat × Nat,
    t.1 < M32 → (r4Iter k t).1 < M32 := by
  induction k with
  | zero => intro t h; exact h
  | succ k ih =>
    intro t h
    rw [r4Iter]
    exact ih _ (Nat.mod_lt _ (by norm_num [M32]))

lemma r4Iter_step_comm (k : Nat) : ∀ t : Nat × Nat × Nat,
    r4Step (r4Iter k t) = r4Iter (k + 1) t := by
  induction k with
  | zero => intro t; rfl
  | succ k ih =>
    intro t
    exact ih (r4Step t)

lemma r4_product (a b : Nat) (_ha : a < M32) (hb : b < M32) :
    (r4Iter 16 (0, a, b)).1 = a * b % M32 := by
  have h1 := r4Iter_inv 16 (0, a, b)
  have h2 := r4Iter_snd 16 (0, a, b)
  have h3 := r4Iter_fst_lt 16 (0, a, b) (by norm_num [M32])
  have hb0 : (r4Iter 16 (0, a, b)).2.2 = 0 := by
    rw [h2]
    exact Nat.div_eq_of_lt (by norm_num [M32] at hb ⊢; omega)
  rw [hb0, mul_zero, add_zero, Nat.mod_eq_of_lt h3] at h1
  simpa using h1

lemma mulIdle_partial : ∀ (n p a b c d : Nat), n < c →
    mulIdle ⟨p, a, b, c, d⟩ n =
      ⟨(r4Iter n (p, a, b)).1, (r4Iter n (p, a, b)).2.1,
        (r4Iter n (p, a, b)).2.2, c - n, d⟩ := by
  intro n
  induction n with
  | zero => intro p a b c d _; simp [mulIdle, r4Iter]
  | succ n ih =>
    intro p a b c d hc
    obtain ⟨m, rfl⟩ : ∃ m, c = m + 2 := ⟨c - 2, by omega⟩
    show mulIdle (mulStep ⟨p, a, b, m + 2, d⟩ false 0 0) n = _
    have hstep : mulStep ⟨p, a, b, m + 2, d⟩ false 0 0 =
        ⟨(r4Step (p, a, b)).1, (r4Step (p, a, b)).2.1,
          (r4Step (p, a, b)).2.2, m + 1, d⟩ := rfl
    rw [hstep, ih _ _ _ _ _ (by omega)]
    have harr : ∀ j, r4Iter j ((r4Step (p, a, b)).1, (r4Step (p, a, b)).2.1,
        (r4Step (p, a, b)).2.2) = r4Iter (j + 1) (p, a, b) := by
      intro j; rw [← r4Iter]
    rw [harr n]
    congr 1
    omega

lemma mulIdle_add : ∀ (m : Nat) (s : MulState) (n : Nat),
    mulIdle s (m + n) = mulIdle (mulIdle s m) n := by
  intro m
  induction m with
  | zero => intro s n; rw [Nat.zero_add]; rfl
  | succ m ih =>
    intro s n
    have h : m + 1 + n = m + n + 1 := by omega
    rw [h]
    show mulIdle (mulStep s false 0 0) (m + n) = _
    rw [ih (mulStep s false 0 0) n]
    rfl

lemma mulIdle_done : ∀ (n : Nat) (s : MulState), s.cnt = 0 → mulIdle s n = s := by
  intro n
  induction n with
  | zero => intro s _; rfl
  | succ n ih =>
    intro s h
    show mulIdle (mulStep s false 0 0) n = s
    have hs : mulStep s false 0 0 = s := by
      obtain ⟨p, a, b, c, d⟩ := s
      simp only at h
      subst h
      rfl
    rw [hs]
    exact ih s h

lemma mulStep_cnt1 (p a b d : Nat) :
    mulStep ⟨p, a, b, 1, d⟩ false 0 0 =
      ⟨(r4Step (p, a, b)).1, (r4Step (p, a, b)).2.1, (r4Step (p, a, b)).2.2, 0,
        (r4Step (p, a, b)).1⟩ := rfl

lemma mulIdle_full (p a b d : Nat) :
    mulIdle ⟨p, a, b, 16, d⟩ 16 =
      ⟨(r4Iter 16 (p, a, b)).1, (r4Iter 16 (p, a, b)).2.1,
        (r4Iter 16 (p, a, b)).2.2, 0, (r4Iter 16 (p, a, b)).1⟩ := by
  rw [← r4Iter_step_comm 15 (p, a, b)]
  have h : (16 : Nat) = 15 + 1 := rfl
  rw [h, mulIdle_add 15 _ 1, mulIdle_partial 15 p a b (15 + 1) d (by omega)]
  have h1 : (15 + 1 - 15 : Nat) = 1 := rfl
  rw [h1]
  generalize r4Iter 15 (p, a, b) = X
  obtain ⟨p', a', b'⟩ := X
  show mulStep ⟨p', a', b', 1, d⟩ false 0 0 = _
  exact mulStep_cnt1 p' a' b' d

lemma mul_run_char (s : MulState) (a b : Nat) (ha : a < M32) (hb : b < M32)
    (n : Nat) :
    (mulIdle (mulStep s true a b) n).dout =
      if n < 16 then s.dout else a * b % M32 := by
  have hstart : mulStep s true a b = ⟨0, a, b, 16, s.dout⟩ := by
    show ({ p := 0, a := a % M32, b := b % M32, cnt := 16, dout := s.dout } : MulState) = _
    rw [Nat.mod_eq_of_lt ha, Nat.mod_eq_of_lt hb]
  rw [hstart]
  by_cases h : n < 16
  · rw [if_pos h, mulIdle_partial n 0 a b 16 s.dout h]
  · rw [if_neg h]
    obtain ⟨m, rfl⟩ : ∃ m, n = 16 + m := ⟨n - 16, by omega⟩
    rw [mulIdle_add 16 _ m, mulIdle_full 0 a b s.dout, mulIdle_done m _ rfl]
    exact r4_product a b ha hb

end JopSpec

namespace JopSpec

lemma findTag_replicate_none (m : Nat) (p : MTag) :
    findTag (List.replicate m none) p = none := by
  induction m with
  | zero => rfl
  | succ m ih =>
    rw [List.replicate_succ]
    show (if (none : Option MTag) = some p then some 0
        else (findTag (List.replicate m none) p).map (· + 1)) = none
    rw [if_neg (by simp), ih]
    rfl

lemma findTag_not_mem (ps : List MTag) (rest : List (Option MTag)) (p : MTag)
    (hp : p ∉ ps) (hrest : findTag rest p = none) :
    findTag (ps.map some ++ rest) p = none := by
  induction ps with
  | nil => simpa using hrest
  | cons q ps ih =>
    rw [List.mem_cons, not_or] at hp
    show (if some q = some p then some 0
        else (findTag (ps.map some ++ rest) p).map (· + 1)) = none
    rw [if_neg (by simp; exact fun h => hp.1 h.symm), ih hp.2]
    rfl

lemma findTag_head (p : MTag) (rest : List (Option MTag)) :
    findTag (some p :: rest) p = some 0 := by
  show (if some p = some p then some 0 else _) = some 0
  rw [if_pos rfl]

lemma set_append_cons (xs : List (Option MTag)) (y : Option MTag)
    (ys : List (Option MTag)) (v : Option MTag) :
    (xs ++ y :: ys).set xs.length v = xs ++ v :: ys := by
  induction xs with
  | nil => rfl
  | cons x xs ih =>
    show x :: (xs ++ y :: ys).set xs.length v = x :: (xs ++ v :: ys)
    rw [ih]

lemma mcRun_append (ps : List MTag) : ∀ (c : MCache) (p : MTag),
    mcRun c (ps ++ [p]) = (mcLookup (mcRun c ps) p).cache := by
  induction ps with
  | nil => intro c p; rfl
  | cons q ps ih =>
    intro c p
    show mcRun (mcLookup c q).cache (ps ++ [p]) = _
    rw [ih]
    rfl

lemma mcLookup_found (c : MCache) (p : MTag) (i : Nat)
    (h : findTag c.blocks p = some i) :
    mcLookup c p = ⟨true, i, c⟩ := by
  unfold mcLookup
  rw [h]

lemma mcLookup_miss (c : MCache) (p : MTag) (h : findTag c.blocks p = none) :
    mcLookup c p =
      ⟨false, c.nxt,
        ⟨c.blocks.set c.nxt (some p), (c.nxt + 1) % c.blocks.length⟩⟩ := by
  unfold mcLookup
  rw [h]

lemma mcRun_fill (N : Nat) (ps : List MTag) (hnd : ps.Nodup)
    (hlen : ps.length ≤ N) :
    mcRun (emptyCache N) ps =
      ⟨ps.map some ++ List.replicate (N - ps.length) none, ps.length % N⟩ := by
  induction ps using List.reverseRecOn with
  | nil =>
    show emptyCache N = _
    simp [emptyCache]
  | append_singleton ps p ih =>
    have hnd2 : ps.Nodup ∧ p ∉ ps := by
      rw [List.nodup_append] at hnd
      refine ⟨hnd.1, fun hmem => ?_⟩
      exact hnd.2.2 hmem (List.mem_singleton.mpr rfl)
    have hlen2 : ps.length < N := by
      rw [List.length_append, List.length_singleton] at hlen
      omega
    have hmod : ps.length % N = ps.length := Nat.mod_eq_of_lt hlen2
    obtain ⟨m, hm⟩ : ∃ m, N - ps.length = m + 1 := ⟨N - ps.length - 1, by omega⟩
    have hft : findTag (ps.map some ++ List.replicate (m + 1) none) p = none :=
      findTag_not_mem ps _ p hnd2.2 (findTag_replicate_none _ _)
    rw [mcRun_append, ih hnd2.1 (Nat.le_of_lt hlen2), hmod, hm]
    have hlook : mcLookup ⟨ps.map some ++ List.replicate (m + 1) none,
        ps.length⟩ p =
        ⟨false, ps.length,
          ⟨(ps.map some ++ List.replicate (m + 1) none).set ps.length (some p),
            (ps.length + 1) %
              (ps.map some ++ List.replicate (m + 1) none).length⟩⟩ := by
      unfold mcLookup
      rw [hft]
    rw [hlook]
    have hset : (ps.map some ++ List.replicate (m + 1) none).set ps.length (some p)
        = (ps ++ [p]).map some ++ List.replicate m none := by
      rw [List.replicate_succ]
      have hl : ps.length = (ps.map some).length := (List.length_map _ _).symm
      rw [hl, set_append_cons, List.map_append]
      simp
    have hlen3 : (ps.map some ++ List.replicate (m + 1) none).length = N := by
      rw [List.length_append, List.length_map, List.length_replicate]
      omega
    have hlen4 : (ps ++ [p]).length = ps.length + 1 := by
      rw [List.length_append, List.length_singleton]
    rw [hset, hlen3, hlen4]
    have hm2 : N - (ps.length + 1) = m := by omega
    rw [hm2]

end JopSpec

namespace JopSpec

lemma barrel_ushr (din off : Nat) (ho : off < 32) :
    barrel din off 0 = ushrRef din off := by
  interval_cases off <;>
    simp +decide only [barrel, stageIf, shiftStage, ushrRef, signBit, M31, M32,
      Nat.reducePow, reduceIte] <;> omega

lemma barrel_shl (din off : Nat) (hd : din < M32) (ho : off < 32) :
    barrel din off 1 = shlRef din off := by
  have hd' : din < 4294967296 := hd
  interval_cases off <;>
    simp +decide only [barrel, stageIf, shiftStage, shlRef, signBit, M31, M32,
      Nat.reducePow, reduceIte] <;> omega

lemma barrel_shr (din off : Nat) (ho : off < 32) :
    barrel din off 2 = shrRef din off := by
  interval_cases off <;>
    simp +decide only [barrel, stageIf, shiftStage, shrRef, signBit, M31, M32,
      Nat.reducePow, reduceIte] <;> omega

lemma barrel_id (din mode : Nat) : barrel din 0 mode = din := by
  simp +decide only [barrel, stageIf, reduceIte]

end JopSpec

namespace JopSpec

/-- C1: For every pair of unsigned 32-bit operands a and b, a start pulse
loads both operands, and the multiplier's held output equals (a*b) mod 2^32
from exactly 17 clock edges after the start pulse on (counting the edge that
samples the pulse as the first), holding the previous value before that and
the product stably afterwards until a later multiplication overwrites it. -/
theorem mul_result_exactly_17_cycles (s : MulState) (a b : Nat)
    (ha : a < M32) (hb : b < M32) (n : Nat) :
    (mulIdle (mulStep s true a b) n).dout =
      if n + 1 < mulLatency then s.dout else a * b % M32 := by
  rw [mul_run_char s a b ha hb n]
  by_cases h : n < 16
  · rw [if_pos h, if_pos (show n + 1 < mulLatency by unfold mulLatency; omega)]
  · rw [if_neg h, if_neg (show ¬n + 1 < mulLatency by unfold mulLatency; omega)]

/-- Witness for C1: 7 × 8 = 56 is held 17 edges after the start pulse. -/
theorem mul_result_exactly_17_cycles_witness :
    (7 : Nat) < M32 ∧ (8 : Nat) < M32 ∧
    (mulIdle (mulStep ⟨0, 0, 0, 0, 0⟩ true 7 8) 16).dout =
      if 16 + 1 < mulLatency then (⟨0, 0, 0, 0, 0⟩ : MulState).dout
      else 7 * 8 % M32 :=
  ⟨by decide, by decide,
    mul_result_exactly_17_cycles ⟨0, 0, 0, 0, 0⟩ 7 8 (by decide) (by decide) 16⟩

/-- C2: A second start pulse issued one cycle after the first discards the
prior operation entirely: at every subsequent cycle the output is either the
value held before both operations or the second product — the first product
is never observable — and the second product appears exactly 17 edges after
the second start pulse.  There is no queue and no error state. -/
theorem mul_restart_discards_first (s : MulState) (a1 b1 a2 b2 : Nat)
    (ha : a2 < M32) (hb : b2 < M32) (n : Nat) :
    (mulIdle (mulStep (mulStep s true a1 b1) true a2 b2) n).dout =
      if n + 1 < mulLatency then s.dout else a2 * b2 % M32 := by
  have hd : (mulStep s true a1 b1).dout = s.dout := rfl
  rw [mul_run_char (mulStep s true a1 b1) a2 b2 ha hb n, hd]
  by_cases h : n < 16
  · rw [if_pos h, if_pos (show n + 1 < mulLatency by unfold mulLatency; omega)]
  · rw [if_neg h, if_neg (show ¬n + 1 < mulLatency by unfold mulLatency; omega)]

/-- Witness for C2: restarting with 5 × 6 one cycle after starting 10 × 11
yields 30, never 110. -/
theorem mul_restart_discards_first_witness :
    (5 : Nat) < M32 ∧ (6 : Nat) < M32 ∧
    (mulIdle (mulStep (mulStep ⟨0, 0, 0, 0, 0⟩ true 10 11) true 5 6) 16).dout =
      if 16 + 1 < mulLatency then (⟨0, 0, 0, 0, 0⟩ : MulState).dout
      else 5 * 6 % M32 :=
  ⟨by decide, by decide,
    mul_restart_discards_first ⟨0, 0, 0, 0, 0⟩ 10 11 5 6 (by decide) (by decide) 16⟩

/-- C3: After both an exception and an interrupt pulse are latched (with
interrupts enabled), the first fetch dispatches to the exception handler and
the second fetch dispatches to the interrupt handler, never the reverse;
and clearing the interrupt-enable input suppresses interrupt dispatch but
never suppresses exception dispatch. -/
theorem exception_priority_and_enable_gating (s : IrqState) :
    dispatch (irqStep s ⟨true, true, true, false⟩) ⟨false, false, true, true⟩
      = Dispatch.exc ∧
    dispatch (irqStep (irqStep s ⟨true, true, true, false⟩)
        ⟨false, false, true, true⟩) ⟨false, false, true, true⟩
      = Dispatch.int ∧
    (∀ t : IrqState, t.excPend = true →
      dispatch t ⟨false, false, false, true⟩ = Dispatch.exc) ∧
    (∀ t : IrqState, t.excPend = false → t.intPend = true →
      dispatch t ⟨false, false, false, true⟩ = Dispatch.normal) := by
  revert s
  decide

/-- Witness for C3, starting from the post-reset latch state. -/
theorem exception_priority_and_enable_gating_witness :
    dispatch (irqStep ⟨false, false⟩ ⟨true, true, true, false⟩)
      ⟨false, false, true, true⟩ = Dispatch.exc ∧
    dispatch (irqStep (irqStep ⟨false, false⟩ ⟨true, true, true, false⟩)
        ⟨false, false, true, true⟩) ⟨false, false, true, true⟩
      = Dispatch.int ∧
    (⟨false, true⟩ : IrqState).excPend = true ∧
    dispatch ⟨false, true⟩ ⟨false, false, false, true⟩ = Dispatch.exc ∧
    (⟨true, false⟩ : IrqState).excPend = false ∧
    (⟨true, false⟩ : IrqState).intPend = true ∧
    dispatch ⟨true, false⟩ ⟨false, false, false, true⟩ = Dispatch.normal := by
  obtain ⟨h1, h2, h3, h4⟩ := exception_priority_and_enable_gating ⟨false, false⟩
  exact ⟨h1, h2, rfl, h3 ⟨false, true⟩ rfl, rfl, rfl, h4 ⟨true, false⟩ rfl rfl⟩

/-- C4: An interrupt or exception pulse always sets its pending latch; a
pending latch not acknowledged in a cycle stays set across that cycle; and
a pending latch can only be cleared by its acknowledge pulsing during a
fetch cycle — a latched pulse is never silently dropped. -/
theorem pending_latch_never_dropped (s : IrqState) (i : IrqIn) :
    (i.irq = true → (irqStep s i).intPend = true) ∧
    (i.exc = true → (irqStep s i).excPend = true) ∧
    (s.intPend = true → ackIrq s i = false → (irqStep s i).intPend = true) ∧
    (s.excPend = true → ackExc s i = false → (irqStep s i).excPend = true) ∧
    (s.intPend = true → (irqStep s i).intPend = false →
      ackIrq s i = true ∧ i.jfetch = true) ∧
    (s.excPend = true → (irqStep s i).excPend = false →
      ackExc s i = true ∧ i.jfetch = true) := by
  revert s i
  decide

/-- Witness for C4: a pending interrupt stays latched while an exception is
being serviced on the same fetch, and an interrupt latch that clears implies
its acknowledge pulsed during a fetch cycle. -/
theorem pending_latch_never_dropped_witness :
    ((⟨true, true⟩ : IrqState).intPend = true ∧
      ackIrq ⟨true, true⟩ ⟨false, false, true, true⟩ = false ∧
      (irqStep ⟨true, true⟩ ⟨false, false, true, true⟩).intPend = true) ∧
    ((⟨true, false⟩ : IrqState).intPend = true ∧
      (irqStep ⟨true, false⟩ ⟨false, false, true, true⟩).intPend = false ∧
      ackIrq ⟨true, false⟩ ⟨false, false, true, true⟩ = true ∧
      (⟨false, false, true, true⟩ : IrqIn).jfetch = true) := by
  obtain h := pending_latch_never_dropped ⟨true, true⟩ ⟨false, false, true, true⟩
  obtain h' := pending_latch_never_dropped ⟨true, false⟩ ⟨false, false, true, true⟩
  refine ⟨⟨rfl, rfl, h.2.2.1 rfl rfl⟩, ⟨rfl, by decide, ?_, ?_⟩⟩
  · exact (h'.2.2.2.2.1 rfl (by decide)).1
  · exact (h'.2.2.2.2.1 rfl (by decide)).2

end JopSpec

namespace JopSpec

/-- C5: On a method cache with N blocks: the first lookup of an unseen
(address, length) pair is a miss (triggering a refill/allocation); an
immediately repeated lookup of the same pair is a hit returning an identical
block base; a hit changes nothing, so recency of use is irrelevant; and
after N distinct pairs fill the cache, the next distinct lookup — even
immediately after the first pair was re-used with a hit — evicts block 0,
the least-recently-allocated block (round-robin, not LRU), after which the
first pair misses again. -/
theorem method_cache_hit_miss_round_robin (N : Nat) (q : MTag)
    (rest : List MTag) (pN : MTag) (hlen : (q :: rest).length = N)
    (hnd : ((q :: rest) ++ [pN]).Nodup) :
    (mcLookup (emptyCache N) q).hit = false ∧
    (mcLookup (mcLookup (emptyCache N) q).cache q).hit = true ∧
    (mcLookup (mcLookup (emptyCache N) q).cache q).base
      = (mcLookup (emptyCache N) q).base ∧
    (mcLookup (mcRun (emptyCache N) (q :: rest)) q).hit = true ∧
    (mcLookup (mcRun (emptyCache N) (q :: rest)) q).cache
      = mcRun (emptyCache N) (q :: rest) ∧
    (mcLookup (mcLookup (mcRun (emptyCache N) (q :: rest)) q).cache pN).hit
      = false ∧
    (mcLookup (mcLookup (mcRun (emptyCache N) (q :: rest)) q).cache pN).base
      = 0 ∧
    (mcLookup (mcLookup (mcLookup (mcRun (emptyCache N) (q :: rest)) q).cache
        pN).cache q).hit = false := by
  have hndq : (q :: rest).Nodup := (List.nodup_append.mp hnd).1
  have hq_rest : q ∉ rest := (List.nodup_cons.mp hndq).1
  have hdisj := (List.nodup_append.mp hnd).2.2
  have hpN : pN ∉ q :: rest := fun hm => hdisj hm (List.mem_singleton.mpr rfl)
  have hq_pN : q ∉ pN :: rest := by
    intro hm
    rcases List.mem_cons.mp hm with h | h
    · exact hpN (by rw [← h]; exact List.mem_cons_self q rest)
    · exact hq_rest h
  obtain ⟨L, rfl⟩ : ∃ L, N = L + 1 :=
    ⟨rest.length, by rw [← hlen, List.length_cons]⟩
  -- the empty cache misses q and allocates block 0
  have hftE : findTag ((emptyCache (L + 1)).blocks) q = none :=
    findTag_replicate_none (L + 1) q
  have hA : mcLookup (emptyCache (L + 1)) q =
      ⟨false, 0, ⟨(List.replicate (L + 1) (none : Option MTag)).set 0 (some q),
        (0 + 1) % (List.replicate (L + 1) (none : Option MTag)).length⟩⟩ :=
    mcLookup_miss _ _ hftE
  have hsetE : (List.replicate (L + 1) (none : Option MTag)).set 0 (some q)
      = some q :: List.replicate L none := by
    rw [List.replicate_succ]
    rfl
  -- the refilled block hits on the immediate repeat
  have hB : mcLookup (mcLookup (emptyCache (L + 1)) q).cache q =
      ⟨true, 0, (mcLookup (emptyCache (L + 1)) q).cache⟩ := by
    apply mcLookup_found
    rw [hA, hsetE]
    exact findTag_head q _
  -- the cache after the N distinct fills
  have hc1 : mcRun (emptyCache (L + 1)) (q :: rest) =
      ⟨(q :: rest).map some, 0⟩ := by
    rw [mcRun_fill (L + 1) (q :: rest) hndq (Nat.le_of_eq hlen), hlen]
    simp
  -- a hit on the filled cache changes nothing
  have hC : mcLookup (mcRun (emptyCache (L + 1)) (q :: rest)) q =
      ⟨true, 0, mcRun (emptyCache (L + 1)) (q :: rest)⟩ := by
    apply mcLookup_found
    rw [hc1]
    exact findTag_head q _
  -- the (N+1)-th distinct pair misses and evicts block 0
  have hftN : findTag ((q :: rest).map some) pN = none := by
    have h := findTag_not_mem (q :: rest) [] pN hpN rfl
    rwa [List.append_nil] at h
  have hD : mcLookup (mcLookup (mcRun (emptyCache (L + 1)) (q :: rest)) q).cache
      pN = ⟨false, 0, ⟨((q :: rest).map some).set 0 (some pN),
        (0 + 1) % ((q :: rest).map some).length⟩⟩ := by
    rw [hC]
    show mcLookup (mcRun (emptyCache (L + 1)) (q :: rest)) pN = _
    rw [hc1]
    exact mcLookup_miss _ _ hftN
  have hsetN : ((q :: rest).map some).set 0 (some pN)
      = (pN :: rest).map some := by
    rw [List.map_cons, List.map_cons]
    rfl
  -- q was evicted: it now misses
  have hftQ : findTag ((pN :: rest).map some) q = none := by
    have h := findTag_not_mem (pN :: rest) [] q hq_pN rfl
    rwa [List.append_nil] at h
  have hE : (mcLookup (mcLookup (mcLookup (mcRun (emptyCache (L + 1))
      (q :: rest)) q).cache pN).cache q).hit = false := by
    rw [hD]
    show (mcLookup ⟨((q :: rest).map some).set 0 (some pN), _⟩ q).hit = false
    rw [hsetN]
    rw [mcLookup_miss _ _ hftQ]
  refine ⟨by rw [hA], by rw [hB], by rw [hB, hA], by rw [hC], by rw [hC],
    by rw [hD], by rw [hD], hE⟩

/-- Witness for C5 on a two-block cache with three distinct pairs. -/
theorem method_cache_round_robin_witness :
    ((0, 4) :: [(8, 4)] : List MTag).length = 2 ∧
    ((((0, 4) :: [(8, 4)]) ++ [(16, 4)] : List MTag)).Nodup ∧
    (mcLookup (emptyCache 2) (0, 4)).hit = false ∧
    (mcLookup (mcLookup (emptyCache 2) (0, 4)).cache (0, 4)).hit = true ∧
    (mcLookup (mcLookup (mcRun (emptyCache 2) ((0, 4) :: [(8, 4)])) (0, 4)).cache
      (16, 4)).base = 0 ∧
    (mcLookup (mcLookup (mcLookup (mcRun (emptyCache 2) ((0, 4) :: [(8, 4)]))
      (0, 4)).cache (16, 4)).cache (0, 4)).hit = false := by
  obtain h := method_cache_hit_miss_round_robin 2 (0, 4) [(8, 4)] (16, 4)
    (by decide) (by decide)
  exact ⟨by decide, by decide, h.1, h.2.1, h.2.2.2.2.2.2.1, h.2.2.2.2.2.2.2⟩

end JopSpec

namespace JopSpec

/-- C6: Every instruction byte maps through the jump table to a fixed
constant microcode address; every byte without an implemented handler maps
to the single "not implemented" handler address (sys_noim), so executing an
unmapped byte redirects there instead of halting.  The two mapped sample
entries pinned down by the verification harness are also checked. -/
theorem jtbl_unmapped_to_sys_noim (b : Nat) (_hb : b < 256)
    (hunmapped : jtblMapped.lookup b = none) :
    jtbl b = jpaddrSysNoim ∧ jtbl 0x00 = 0x218 ∧ jtbl 0x60 = 0x26C := by
  refine ⟨?_, rfl, rfl⟩
  unfold jtbl
  rw [hunmapped]

/-- Witness for C6 at the unmapped byte 0xFF used by the harness's test. -/
theorem jtbl_unmapped_to_sys_noim_witness :
    (255 : Nat) < 256 ∧ jtblMapped.lookup 255 = none ∧
    (jtbl 255 = jpaddrSysNoim ∧ jtbl 0x00 = 0x218 ∧ jtbl 0x60 = 0x26C) :=
  ⟨by decide, by decide, jtbl_unmapped_to_sys_noim 255 (by decide) (by decide)⟩

/-- C7: The flags are pure functions of the current operands: the zero flag
holds iff A = 0, the negative flag holds iff A's sign bit is set (A negative
as a signed 32-bit value), the equal flag holds iff A = B, and the less-than
flag — the sign of the 33-bit subtract result B - A — holds iff B is less
than A in signed two's-complement order, including the INT_MIN/INT_MAX
boundary cases. -/
theorem stack_flags_correct (a b : Nat) (ha : a < M32) (hb : b < M32) :
    (zf a = true ↔ a = 0) ∧
    (nf a = true ↔ toSigned a < 0) ∧
    (eqf a b = true ↔ a = b) ∧
    (ltf a b = true ↔ toSigned b < toSigned a) := by
  have ha' : a < 4294967296 := ha
  have hb' : b < 4294967296 := hb
  refine ⟨by simp [zf], ?_, by simp [eqf], ?_⟩
  · simp only [nf, signBit, toSigned, M31, M32, beq_iff_eq]
    split_ifs with h <;> omega
  · simp only [ltf, sub33, ext33, signBit, toSigned, M31, M32, M33, beq_iff_eq]
    split_ifs with h1 h2 h2 <;> omega

/-- Witness for C7 at the INT_MIN/INT_MAX boundary (A = INT_MIN,
B = INT_MAX). -/
theorem stack_flags_correct_witness :
    (2147483648 : Nat) < M32 ∧ (2147483647 : Nat) < M32 ∧
    ((zf 2147483648 = true ↔ (2147483648 : Nat) = 0) ∧
      (nf 2147483648 = true ↔ toSigned 2147483648 < 0) ∧
      (eqf 2147483648 2147483647 = true ↔ (2147483648 : Nat) = 2147483647) ∧
      (ltf 2147483648 2147483647 = true ↔
        toSigned 2147483647 < toSigned 2147483648)) :=
  ⟨by decide, by decide,
    stack_flags_correct 2147483648 2147483647 (by decide) (by decide)⟩

/-- C8: For every 32-bit input and shift amount 0..31, the barrel shifter
matches the reference semantics in all three modes — unsigned-right is the
logical right shift, left is the left shift masked to 32 bits, and
arithmetic-right is the sign-extending right shift — and shift amount 0 is
the identity in all three modes. -/
theorem barrel_shifter_correct (din off : Nat) (hd : din < M32)
    (ho : off < 32) :
    barrel din off 0 = ushrRef din off ∧
    barrel din off 1 = shlRef din off ∧
    barrel din off 2 = shrRef din off ∧
    (off = 0 → barrel din 0 0 = din ∧ barrel din 0 1 = din ∧
      barrel din 0 2 = din) :=
  ⟨barrel_ushr din off ho, barrel_shl din off hd ho, barrel_shr din off ho,
    fun _ => ⟨barrel_id din 0, barrel_id din 1, barrel_id din 2⟩⟩

/-- Witness for C8 at input 0x80000000 (sign bit set), shift amount 4. -/
theorem barrel_shifter_correct_witness :
    (2147483648 : Nat) < M32 ∧ (4 : Nat) < 32 ∧
    (barrel 2147483648 4 0 = ushrRef 2147483648 4 ∧
      barrel 2147483648 4 1 = shlRef 2147483648 4 ∧
      barrel 2147483648 4 2 = shrRef 2147483648 4 ∧
      ((4 : Nat) = 0 → barrel 2147483648 0 0 = 2147483648 ∧
        barrel 2147483648 0 1 = 2147483648 ∧
        barrel 2147483648 0 2 = 2147483648)) :=
  ⟨by decide, by decide,
    barrel_shifter_correct 2147483648 4 (by decide) (by decide)⟩

/-- C9: When the first parsed word of a `.jop` image (the declared total
word count) differs from the number of words actually parsed, the loader
reports a warning and still transmits every parsed word; the mismatch is
never treated as a load failure. -/
theorem loader_header_mismatch_warns (words : List Nat) (hne : words ≠ [])
    (hmis : headerMismatch words = true) :
    loadImage words = some ⟨true, transmittedWords words⟩ := by
  unfold loadImage
  rw [if_neg hne, hmis]

/-- Witness for C9: an image declaring 5 words but containing 2 still loads
(with the warning set) and transmits both words. -/
theorem loader_header_mismatch_warns_witness :
    ([5, 1] : List Nat) ≠ [] ∧ headerMismatch [5, 1] = true ∧
    loadImage [5, 1] = some ⟨true, transmittedWords [5, 1]⟩ :=
  ⟨by decide, by decide,
    loader_header_mismatch_warns [5, 1] (by decide) (by decide)⟩

/-- C10: Immediately after reset the stack/execute unit reads A = 0, B = 0,
SP = 128 (the midpoint of the 256-word stack RAM, not 0), the zero and equal
flags set, and the negative flag clear. -/
theorem stack_reset_state_correct :
    stackResetState.a = 0 ∧ stackResetState.b = 0 ∧
    stackResetState.sp = 128 ∧ stackResetState.sp = stackRamWords / 2 ∧
    stackResetState.sp ≠ 0 ∧
    zf stackResetState.a = true ∧ nf stackResetState.a = false ∧
    eqf stackResetState.a stackResetState.b = true := by
  decide

end JopSpec
